import Mathlib

/-!
# Verification of the corgi_backtest core engine (`src/backtest.py`)

Shallow embedding of the market-cap-weighted index backtest:

* calendar dates with the lexicographic order and the pandas `year`/`quarter`
  accessors;
* the schedule builder (`rebalance_dates`, `year_end_dates`,
  backtest.py lines 80-100);
* the rebalance engine (`nlargest`, `rebalanceStep`, lines 112-117);
* the daily simulation loop (`dailyReturn`, `simStep`, `simulate`,
  lines 104-134);
* the performance reporter (`pct_change`, `cagr`, lines 137-143);
* the data-loading guard (`loadMarketCapPanel`, `runBacktest`,
  lines 42-49 and 66-77).

Numeric convention: Python floats are modelled as `ℚ` (exact arithmetic).
Lean's `ℚ` division is total with `x / 0 = 0`, which is NOT what numpy
does (`0.0/0.0` is `nan`); therefore every theorem whose truth could
depend on a zero denominator either excludes that case by an explicit
non-zero-total hypothesis, or is settled against the NaN-faithful replay
of the loop (`PyFloat`, `nanSimulate` below), which propagates `nan`
exactly as the source does.  Under the non-zero-total hypotheses the two
models coincide (`nanSimulate_fin`).  Missing panel entries (`NaN` cells)
are modelled by absence from an association list / `Option.none`.
A Python exception that the source can raise is modelled by an explicit
error value (`Except.error`, `PyCagr.zeroDivisionError`, and the
empty-date-index guard in `runBacktest` for the `iloc[0]` IndexError /
`index.year` AttributeError).
-/

namespace Corgi

abbrev Ticker := String

/-- A calendar date, as the `year`/`month`/`day` fields of a pandas
`Timestamp`. -/
@[ext]
structure Date where
  year : Nat
  month : Nat
  day : Nat
deriving DecidableEq, Repr

/-- `DatetimeIndex.quarter`: the calendar quarter (1-4) of a date. -/
def Date.quarter (d : Date) : Nat := (d.month - 1) / 3 + 1

/-- Lexicographic order on dates (year, then month, then day), the
chronological order of timestamps. -/
def Date.le (a b : Date) : Prop :=
  a.year < b.year ∨
    (a.year = b.year ∧
      (a.month < b.month ∨ (a.month = b.month ∧ a.day ≤ b.day)))

/-- Strict lexicographic order on dates. -/
def Date.lt (a b : Date) : Prop :=
  a.year < b.year ∨
    (a.year = b.year ∧
      (a.month < b.month ∨ (a.month = b.month ∧ a.day < b.day)))

instance : DecidableRel Date.le := fun a b => by
  unfold Date.le; exact inferInstance

instance : DecidableRel Date.lt := fun a b => by
  unfold Date.lt; exact inferInstance

instance : LinearOrder Date where
  le := Date.le
  lt := Date.lt
  le_refl a := by simp [Date.le]
  le_trans a b c hab hbc := by
    simp only [Date.le] at hab hbc ⊢; omega
  le_antisymm a b hab hba := by
    cases a; cases b
    simp only [Date.le] at hab hba
    simp only [Date.mk.injEq]
    omega
  le_total a b := by simp only [Date.le]; omega
  lt_iff_le_not_le a b := by
    simp only [Date.le, Date.lt]; omega
  decidableLE := inferInstanceAs (DecidableRel Date.le)
  decidableLT := inferInstanceAs (DecidableRel Date.lt)
  decidableEq := inferInstance

/-! ## Schedule builder (backtest.py lines 80-100) -/

/-- Quarterly rebalance dates (backtest.py lines 80-89): for every year
appearing in the index and every quarter 1-4, the last index entry of that
(year, quarter) group, when the group is non-empty; finally `sorted(set(…))`.
-/
def rebalance_dates (index : List Date) : List Date :=
  let collected := ((index.map Date.year).dedup).flatMap (fun year =>
    [1, 2, 3, 4].filterMap (fun quarter =>
      (index.filter
        (fun d => d.year == year && d.quarter == quarter)).getLast?))
  (collected.dedup).insertionSort (· ≤ ·)

/-- Annual fee dates (backtest.py lines 94-100): group the index by calendar
year and keep the last row of each group (`groupby(… to_period("Y")).tail(1)`).
-/
def year_end_dates (index : List Date) : List Date :=
  ((index.map Date.year).dedup).filterMap (fun year =>
    (index.filter (fun d => d.year == year)).getLast?)

/-! ## Rebalance engine (backtest.py lines 112-117)

A market-cap panel row after `.dropna()` is an association list of the
(ticker, market cap) pairs present on that date, in column order. -/

/-- The descending-market-cap comparison used by `nlargest`. -/
def capGE (a b : Ticker × ℚ) : Prop := b.2 ≤ a.2

instance : DecidableRel capGE := fun a b => by
  unfold capGE; exact inferInstance

instance : IsTotal (Ticker × ℚ) capGE := ⟨fun a b => le_total b.2 a.2⟩

instance : IsTrans (Ticker × ℚ) capGE :=
  ⟨fun _ _ _ h1 h2 => le_trans h2 h1⟩

/-- `Series.nlargest(n)` (with the default `keep='first'`): stable sort by
descending value, then take the first `n` entries.  (Insertion sort is
stable, so it agrees with pandas' stable descending sort.) -/
def nlargest (n : Nat) (row : List (Ticker × ℚ)) : List (Ticker × ℚ) :=
  (row.insertionSort capGE).take n

/-- One rebalance attempt (backtest.py lines 113-117): if at least `topN`
securities have a market cap on this date, replace the holdings by the
`topN` largest, each weighted by its cap over the sum of the selected caps;
otherwise keep the previous holdings. -/
def rebalanceStep (topN : Nat) (mcapRow : List (Ticker × ℚ))
    (holdings : List (Ticker × ℚ)) : List (Ticker × ℚ) :=
  if topN ≤ mcapRow.length then
    let top := nlargest topN mcapRow
    let total := (top.map Prod.snd).sum
    top.map (fun p => (p.1, p.2 / total))
  else
    holdings

/-! ## Simulation loop (backtest.py lines 104-134)

A returns-panel row maps a ticker to `none` when the panel has no such
column, to `some none` when the cell is `NaN`, and to `some (some r)` when
the cell holds the return `r`. -/

/-- The contribution of one held security to the daily return
(backtest.py lines 121-125): `weight × return` when the returns panel has
the ticker's column and the cell is not `NaN`, and `0` otherwise (the
security is filtered out of the sum). -/
def contribOf (retRow : List (Ticker × Option ℚ)) (p : Ticker × ℚ) : ℚ :=
  match retRow.lookup p.1 with
  | some (some r) => p.2 * r
  | _ => 0

/-- Daily portfolio return (backtest.py lines 121-125): sum of
`weight × return` over the held securities, where a held security that is
absent from the returns panel's columns or whose cell is `NaN` is filtered
out of the sum (contributes nothing). -/
def dailyReturn (holdings : List (Ticker × ℚ))
    (retRow : List (Ticker × Option ℚ)) : ℚ :=
  (holdings.map (contribOf retRow)).sum

/-- The compounding update of one value series (backtest.py lines 126-130):
multiply by `1 + dailyReturn` when holdings exist, otherwise hold flat. -/
def compoundValue (holdings : List (Ticker × ℚ)) (dr v : ℚ) : ℚ :=
  if holdings.isEmpty then v else v * (1 + dr)

/-- The year-end fee deduction (backtest.py lines 133-134): on a fee date,
multiply the with-fee series by `1 - ANNUAL_FEE`. -/
def applyFee (isFeeDate : Bool) (annualFee v : ℚ) : ℚ :=
  if isFeeDate then v * (1 - annualFee) else v

/-- Configuration parameters of the backtest (backtest.py lines 8-10). -/
structure Config where
  topN : Nat
  initialValue : ℚ
  annualFee : ℚ
deriving Repr

/-- The mutable state of the simulation loop: the current holdings
(ticker, weight pairs) and the two value series' running entries. -/
structure SimState where
  holdings : List (Ticker × ℚ)
  value : ℚ
  valueFee : ℚ
deriving DecidableEq, Repr

/-- The holdings in force on a given date, after the rebalance part of the
loop iteration (backtest.py lines 112-117): rebalance on rebalance dates,
otherwise keep the previous holdings. -/
def stepHoldings (cfg : Config) (rebDates : List Date)
    (mcapRow : Date → List (Ticker × ℚ))
    (s : SimState) (date : Date) : List (Ticker × ℚ) :=
  if date ∈ rebDates then
    rebalanceStep cfg.topN (mcapRow date) s.holdings
  else s.holdings

/-- One iteration of the simulation loop (backtest.py lines 110-134) for a
date after the first: possibly rebalance, compound both series by the same
daily return, then apply the annual fee to the with-fee series only. -/
def simStep (cfg : Config) (rebDates feeDates : List Date)
    (mcapRow : Date → List (Ticker × ℚ))
    (retRow : Date → List (Ticker × Option ℚ))
    (s : SimState) (date : Date) : SimState :=
  let h := stepHoldings cfg rebDates mcapRow s date
  let dr := dailyReturn h (retRow date)
  { holdings := h
    value := compoundValue h dr s.value
    valueFee :=
      applyFee (decide (date ∈ feeDates)) cfg.annualFee
        (compoundValue h dr s.valueFee) }

/-- The loop's state before any date is processed (backtest.py lines
106-108): empty holdings, both series at the initial capital. -/
def initState (cfg : Config) : SimState :=
  ⟨[], cfg.initialValue, cfg.initialValue⟩

/-- The full simulation (backtest.py lines 104-134): the state after each
date of the index.  Position 0 is the initial state (the first date is the
fixed starting point); the loop then folds `simStep` over the remaining
dates.  The source only reaches the loop with a non-empty index (on an
empty one it crashes at `portfolio_value.iloc[0] = INITIAL_VALUE` or
already at `index.year`); that crash is modelled in `runBacktest` below,
so the `[]` equation here is unreachable in the full pipeline. -/
def simulate (cfg : Config) (rebDates feeDates : List Date)
    (mcapRow : Date → List (Ticker × ℚ))
    (retRow : Date → List (Ticker × Option ℚ)) :
    List Date → List SimState
  | [] => []
  | _d0 :: rest =>
    rest.scanl (simStep cfg rebDates feeDates mcapRow retRow)
      (initState cfg)

/-! ## Performance reporter (backtest.py lines 137-143) -/

/-- `Series.pct_change().dropna()`: the period-over-period fractional
changes of a series (the leading `NaN` has been dropped). -/
def pct_change (l : List ℚ) : List ℚ :=
  (l.zip l.tail).map (fun p => p.2 / p.1 - 1)

/-- Result of the CAGR computation: a value, or the `ZeroDivisionError`
that Python raises when the exponent's denominator is zero. -/
inductive PyCagr where
  | ok (x : ℚ)
  | zeroDivisionError
deriving DecidableEq, Repr

/-- The CAGR computation (backtest.py lines 137-139 / 141-143) over a value
series `v0 :: rest`.  `pw` is float exponentiation `x ** y` (its semantics
are irrelevant here, so it is a parameter); the expression
`252 / len(returns)` raises an uncaught `ZeroDivisionError` when the series
has no return observations, modelled by the error branch. -/
def cagr (pw : ℚ → ℚ → ℚ) (v0 : ℚ) (rest : List ℚ) : PyCagr :=
  let values := v0 :: rest
  let returns := pct_change values
  let totalReturn := values.getLast (by simp) / v0 - 1
  if returns.length = 0 then
    .zeroDivisionError
  else
    .ok (pw (1 + totalReturn) ((252 : ℚ) / (returns.length : ℚ)) - 1)

/-! ## Data loading (backtest.py lines 17-77) -/

/-- A market-cap panel: a date index, the ticker columns, and for each date
the association list of (ticker, cap) entries present on that date
(a ticker column absent from a row's list is a `NaN` cell). -/
structure McapPanel where
  index : List Date
  cols : List Ticker
  row : Date → List (Ticker × ℚ)

/-- The fallback panel assembly (backtest.py lines 43-47): index = sorted
union of all per-ticker dates, columns in dictionary order, each row holding
the tickers whose series has that date. -/
def panelFromDict (dict : List (Ticker × List (Date × ℚ))) : McapPanel where
  index :=
    ((dict.flatMap (fun p => p.2.map Prod.fst)).dedup).insertionSort (· ≤ ·)
  cols := dict.map Prod.fst
  row := fun d =>
    dict.filterMap (fun p => (p.2.lookup d).map (fun v => (p.1, v)))

/-- Market-cap loading (backtest.py lines 17-49): prefer the
`Market_Cap_Table` sheet; otherwise assemble the per-ticker
`_market_cap` sheets; if neither exists, raise
`RuntimeError("No market cap data found. …")`. -/
def loadMarketCapPanel (table : Option McapPanel)
    (dict : List (Ticker × List (Date × ℚ))) : Except String McapPanel :=
  match table with
  | some p => .ok p
  | none =>
    if dict.isEmpty then
      .error "No market cap data found."
    else
      .ok (panelFromDict dict)

/-- The pad-filled value of a per-ticker series along the first `i` index
dates (`upto = index.take i`): `pct_change()`'s default `fill_method='pad'`
carries the last seen value forward across gaps in the reindexed series,
so the effective value at a position is the series' entry at the last
index date up to that position that has one (`none` while no entry has
been seen yet). -/
def padValue (series : List (Date × ℚ)) (upto : List Date) : Option ℚ :=
  (upto.filterMap (fun d => series.lookup d)).getLast?

/-- One returns-panel row from the price sheets (backtest.py lines 66-74),
at index position `i`: the prices are reindexed onto the market-cap index,
`pct_change()` forward-fills gaps with the last seen price before
differencing, and the remaining leading `NaN`s (position 0, or no price
seen yet) become 0 via `fillna(0)` — so every priced ticker has a value on
every date. -/
def returnsRowFromPrices (prices : List (Ticker × List (Date × ℚ)))
    (index : List Date) (i : Nat) : List (Ticker × Option ℚ) :=
  prices.map (fun p =>
    (p.1, some (match padValue p.2 (index.take i),
        padValue p.2 (index.take (i + 1)) with
      | some p0, some p1 => p1 / p0 - 1
      | _, _ => 0)))

/-- The pad-filled value of one market-cap column along the first `i`
index dates, as in `padValue`. -/
def padColValue (panel : McapPanel) (t : Ticker) (upto : List Date) :
    Option ℚ :=
  (upto.filterMap (fun d => (panel.row d).lookup t)).getLast?

/-- One returns-panel row approximated from the market-cap panel
(backtest.py line 77), at index position `i`: percentage change of each
market-cap column with the same pad-fill-then-`fillna(0)` semantics. -/
def returnsRowFromMcap (panel : McapPanel) (i : Nat) :
    List (Ticker × Option ℚ) :=
  panel.cols.map (fun t =>
    (t, some (match padColValue panel t (panel.index.take i),
        padColValue panel t (panel.index.take (i + 1)) with
      | some p0, some p1 => p1 / p0 - 1
      | _, _ => 0)))

/-- The returns panel (backtest.py lines 73-77): price-based day-over-day
returns when any price sheet exists, otherwise the market-cap
approximation. -/
def returnsPanel (panel : McapPanel)
    (prices : List (Ticker × List (Date × ℚ))) :
    List (Date × List (Ticker × Option ℚ)) :=
  if prices.isEmpty then
    panel.index.enum.map (fun p => (p.2, returnsRowFromMcap panel p.1))
  else
    panel.index.enum.map
      (fun p => (p.2, returnsRowFromPrices prices panel.index p.1))

/-- Row lookup in the returns panel (a date outside the index has an empty
row). -/
def retRowOfPanel (panel : List (Date × List (Ticker × Option ℚ)))
    (d : Date) : List (Ticker × Option ℚ) :=
  (panel.lookup d).getD []

/-- The market-cap row for a date, after `.dropna()`. -/
def mcapRowOf (panel : McapPanel) (d : Date) : List (Ticker × ℚ) :=
  panel.row d

/-- The output of a completed run: the date index and the two value
series. -/
structure BacktestResult where
  dates : List Date
  values : List ℚ
  valuesFee : List ℚ

/-- The whole core pipeline (backtest.py lines 17-134): load the market-cap
panel (fatal `RuntimeError` when no data exists at all), build the returns
panel, derive the schedules, and run the simulation over the index.

When the assembled panel has an EMPTY date index (a zero-row
`Market_Cap_Table` sheet, or per-ticker sheets whose series are all empty),
the source crashes before the loop with an uncaught exception instead of
completing: in the fallback branch already at `market_cap_panel.index.year`
(line 81, `AttributeError` on an empty object `Index`), in the table branch
at `portfolio_value.iloc[0] = INITIAL_VALUE` (line 106, `IndexError`).
Both pre-loop crashes are modelled by the explicit guard below. -/
def runBacktest (cfg : Config) (table : Option McapPanel)
    (mcapDict priceDict : List (Ticker × List (Date × ℚ))) :
    Except String BacktestResult :=
  match loadMarketCapPanel table mcapDict with
  | .error e => .error e
  | .ok panel =>
    if panel.index.isEmpty then
      .error "uncaught IndexError/AttributeError: empty date index"
    else
      let retPanel := returnsPanel panel priceDict
      let states := simulate cfg (rebalance_dates panel.index)
        (year_end_dates panel.index) (mcapRowOf panel)
        (retRowOfPanel retPanel) panel.index
      .ok ⟨panel.index, states.map SimState.value,
        states.map SimState.valueFee⟩

/-! ## NaN-faithful float replay of the simulation loop

`ℚ`'s total division hides numpy's `0.0/0.0 = nan`.  The definitions below
replay backtest.py lines 104-134 over an explicit float type in which a
zero-denominator division and everything it touches is `nan`, exactly as
in the source.  They are used to settle the claims that quantify over
inputs on which the `nan` path is reachable; `nanSimulate_fin` below
proves that away from that path (non-zero selected-cap totals) this replay
and `simulate` coincide. -/

/-- A Python/numpy float as the simulation loop sees it: a finite value,
or the non-finite result of a zero-denominator division.  `0.0/0.0` is
`nan`; the loop's only division is market cap over the sum of the selected
market caps, so with the data model's non-negative caps a zero denominator
forces a zero numerator, and the result is always `nan` (a `±inf` from a
non-zero numerator over zero is mapped to `nan` here as well; no theorem
below evaluates that case).  Arithmetic on `nan` yields `nan`. -/
inductive PyFloat where
  | fin (x : ℚ)
  | nan
deriving DecidableEq, Repr

/-- Float addition: `nan` absorbs. -/
def PyFloat.add : PyFloat → PyFloat → PyFloat
  | fin a, fin b => fin (a + b)
  | _, _ => nan

/-- Float multiplication: `nan` absorbs (also `nan * 0 = nan`). -/
def PyFloat.mul : PyFloat → PyFloat → PyFloat
  | fin a, fin b => fin (a * b)
  | _, _ => nan

/-- Float division: a zero denominator leaves the finite domain. -/
def PyFloat.div : PyFloat → PyFloat → PyFloat
  | fin a, fin b => if b = 0 then nan else fin (a / b)
  | _, _ => nan

/-- Python's `sum(...)` over floats (`nan` poisons the total). -/
def nanSum (l : List PyFloat) : PyFloat := l.foldr PyFloat.add (.fin 0)

/-- The rebalance attempt of backtest.py lines 113-117 with float weights:
identical to `rebalanceStep` except that the weight division is the float
one, so an all-zero selected row yields `nan` weights (`0.0/0.0`), exactly
as `mcap[t] / total_mcap` does in the source. -/
def nanRebalanceStep (topN : Nat) (mcapRow : List (Ticker × ℚ))
    (holdings : List (Ticker × PyFloat)) : List (Ticker × PyFloat) :=
  if topN ≤ mcapRow.length then
    let top := nlargest topN mcapRow
    let total := (top.map Prod.snd).sum
    top.map (fun p => (p.1, PyFloat.div (.fin p.2) (.fin total)))
  else
    holdings

/-- One held security's contribution (lines 121-125) with a float weight:
the `pd.notna` filter checks the RETURN cell, not the weight, so a `nan`
weight times a present return is `nan`; an absent/`NaN` return cell is
filtered out (contributes `0.0`) even under a `nan` weight. -/
def nanContrib (retRow : List (Ticker × Option ℚ)) (p : Ticker × PyFloat) :
    PyFloat :=
  match retRow.lookup p.1 with
  | some (some r) => p.2.mul (.fin r)
  | _ => .fin 0

/-- Daily portfolio return (lines 121-125) over float weights. -/
def nanDailyReturn (holdings : List (Ticker × PyFloat))
    (retRow : List (Ticker × Option ℚ)) : PyFloat :=
  nanSum (holdings.map (nanContrib retRow))

/-- The compounding update (lines 126-130) over floats. -/
def nanCompound (holdings : List (Ticker × PyFloat)) (dr v : PyFloat) :
    PyFloat :=
  if holdings.isEmpty then v else v.mul ((PyFloat.fin 1).add dr)

/-- The year-end fee deduction (lines 133-134) over floats. -/
def nanApplyFee (isFeeDate : Bool) (annualFee : ℚ) (v : PyFloat) :
    PyFloat :=
  if isFeeDate then v.mul (.fin (1 - annualFee)) else v

/-- The loop state with float-valued weights and series entries. -/
structure NanSimState where
  holdings : List (Ticker × PyFloat)
  value : PyFloat
  valueFee : PyFloat
deriving DecidableEq, Repr

/-- One loop iteration (lines 110-134) over floats. -/
def nanSimStep (cfg : Config) (rebDates feeDates : List Date)
    (mcapRow : Date → List (Ticker × ℚ))
    (retRow : Date → List (Ticker × Option ℚ))
    (s : NanSimState) (date : Date) : NanSimState :=
  let h := if date ∈ rebDates then
      nanRebalanceStep cfg.topN (mcapRow date) s.holdings
    else s.holdings
  let dr := nanDailyReturn h (retRow date)
  { holdings := h
    value := nanCompound h dr s.value
    valueFee :=
      nanApplyFee (decide (date ∈ feeDates)) cfg.annualFee
        (nanCompound h dr s.valueFee) }

/-- The full simulation (lines 104-134) over floats. -/
def nanSimulate (cfg : Config) (rebDates feeDates : List Date)
    (mcapRow : Date → List (Ticker × ℚ))
    (retRow : Date → List (Ticker × Option ℚ)) :
    List Date → List NanSimState
  | [] => []
  | _d0 :: rest =>
    rest.scanl (nanSimStep cfg rebDates feeDates mcapRow retRow)
      ⟨[], .fin cfg.initialValue, .fin cfg.initialValue⟩

/-- The embedding of an exact-arithmetic loop state into the float replay
(every weight and both series entries finite). -/
def finState (s : SimState) : NanSimState where
  holdings := s.holdings.map (fun p => (p.1, PyFloat.fin p.2))
  value := .fin s.value
  valueFee := .fin s.valueFee

/-! ## Invariants used by the verification -/

/-- Every weight produced by the loop is non-negative and the weights sum
to at most 1 (the sum is 1 after a rebalance with a positive cap total, 0
for the empty holdings and for an all-zero-cap rebalance). -/
def GoodHoldings (h : List (Ticker × ℚ)) : Prop :=
  (∀ p ∈ h, 0 ≤ p.2) ∧ (h.map Prod.snd).sum ≤ 1

/-- The simulation-loop invariant: both running values are positive and
the holdings are well formed. -/
def Inv (s : SimState) : Prop :=
  0 < s.value ∧ 0 < s.valueFee ∧ GoodHoldings s.holdings

/-! ## Basic lemmas about the step functions -/

theorem compoundValue_nonempty (holdings : List (Ticker × ℚ)) (dr v : ℚ)
    (h : holdings ≠ []) : compoundValue holdings dr v = v * (1 + dr) := by
  simp [compoundValue, h]

theorem compoundValue_empty (dr v : ℚ) : compoundValue [] dr v = v := by
  simp [compoundValue]

theorem simStep_value (cfg : Config) (rebDates feeDates : List Date)
    (mcapRow : Date → List (Ticker × ℚ))
    (retRow : Date → List (Ticker × Option ℚ)) (s : SimState) (date : Date) :
    (simStep cfg rebDates feeDates mcapRow retRow s date).value
      = compoundValue (stepHoldings cfg rebDates mcapRow s date)
          (dailyReturn (stepHoldings cfg rebDates mcapRow s date)
            (retRow date)) s.value := rfl

theorem simStep_valueFee (cfg : Config) (rebDates feeDates : List Date)
    (mcapRow : Date → List (Ticker × ℚ))
    (retRow : Date → List (Ticker × Option ℚ)) (s : SimState) (date : Date) :
    (simStep cfg rebDates feeDates mcapRow retRow s date).valueFee
      = applyFee (decide (date ∈ feeDates)) cfg.annualFee
          (compoundValue (stepHoldings cfg rebDates mcapRow s date)
            (dailyReturn (stepHoldings cfg rebDates mcapRow s date)
              (retRow date)) s.valueFee) := rfl

theorem simStep_holdings (cfg : Config) (rebDates feeDates : List Date)
    (mcapRow : Date → List (Ticker × ℚ))
    (retRow : Date → List (Ticker × Option ℚ)) (s : SimState) (date : Date) :
    (simStep cfg rebDates feeDates mcapRow retRow s date).holdings
      = stepHoldings cfg rebDates mcapRow s date := rfl

/-! ## Claim theorems -/

/-- C1: at every step after the first date, if the holdings in force (after
any rebalance on that date) are non-empty, both value series are compounded
by the identical multiplier `1 + daily_return` — the no-fee series' stored
value is exactly `value[d-1] * (1 + daily_return)`, and the with-fee
series' stored value is the fee adjustment (`applyFee`, the identity off
fee dates) applied to `value_fee[d-1] * (1 + daily_return)`.  If the
holdings in force are empty, both series are held flat by the compounding
step (the stored values are the fee adjustment applied to the unchanged
previous values). -/
theorem step_compounding (cfg : Config) (rebDates feeDates : List Date)
    (mcapRow : Date → List (Ticker × ℚ))
    (retRow : Date → List (Ticker × Option ℚ)) (s : SimState) (date : Date) :
    (stepHoldings cfg rebDates mcapRow s date ≠ [] →
      (simStep cfg rebDates feeDates mcapRow retRow s date).value
          = s.value * (1 + dailyReturn
              (stepHoldings cfg rebDates mcapRow s date) (retRow date))
        ∧ (simStep cfg rebDates feeDates mcapRow retRow s date).valueFee
          = applyFee (decide (date ∈ feeDates)) cfg.annualFee
              (s.valueFee * (1 + dailyReturn
                (stepHoldings cfg rebDates mcapRow s date) (retRow date))))
    ∧ (stepHoldings cfg rebDates mcapRow s date = [] →
      (simStep cfg rebDates feeDates mcapRow retRow s date).value = s.value
        ∧ (simStep cfg rebDates feeDates mcapRow retRow s date).valueFee
          = applyFee (decide (date ∈ feeDates)) cfg.annualFee s.valueFee) := by
  constructor
  · intro hne
    rw [simStep_value, simStep_valueFee,
      compoundValue_nonempty _ _ _ hne, compoundValue_nonempty _ _ _ hne]
    exact ⟨rfl, rfl⟩
  · intro hemp
    rw [simStep_value, simStep_valueFee, hemp,
      compoundValue_empty, compoundValue_empty]
    exact ⟨rfl, rfl⟩

theorem step_compounding_witness :
    let cfg : Config := ⟨1, 10000, 49 / 10000⟩
    let s : SimState := ⟨[("A", 1)], 200, 100⟩
    let retRow : Date → List (Ticker × Option ℚ) :=
      fun _ => [("A", some (1 / 100))]
    stepHoldings cfg [] (fun _ => []) s ⟨2021, 6, 1⟩ ≠ [] ∧
      (simStep cfg [] [] (fun _ => []) retRow s ⟨2021, 6, 1⟩).value
          = 200 * (1 + dailyReturn
              (stepHoldings cfg [] (fun _ => []) s ⟨2021, 6, 1⟩)
              (retRow ⟨2021, 6, 1⟩))
        ∧ (simStep cfg [] [] (fun _ => []) retRow s ⟨2021, 6, 1⟩).valueFee
          = applyFee (decide ((⟨2021, 6, 1⟩ : Date) ∈ ([] : List Date)))
              (49 / 10000)
              (100 * (1 + dailyReturn
                (stepHoldings cfg [] (fun _ => []) s ⟨2021, 6, 1⟩)
                (retRow ⟨2021, 6, 1⟩))) :=
  ⟨by simp [stepHoldings], (step_compounding _ _ _ _ _ _ _).1
    (by simp [stepHoldings])⟩

/-- C2: the annual fee multiplier `1 - ANNUAL_FEE` is applied to the
with-fee series exactly on fee dates, strictly after that date's
compounding step: on a fee date the stored with-fee value is the
post-compounding value times `1 - ANNUAL_FEE`, on any other date it is the
post-compounding value unchanged, and the no-fee series' stored value is
the bare compounding result on every date (it never receives the fee
adjustment). -/
theorem fee_application (cfg : Config) (rebDates feeDates : List Date)
    (mcapRow : Date → List (Ticker × ℚ))
    (retRow : Date → List (Ticker × Option ℚ)) (s : SimState) (date : Date) :
    (date ∈ feeDates →
      (simStep cfg rebDates feeDates mcapRow retRow s date).valueFee
        = compoundValue (stepHoldings cfg rebDates mcapRow s date)
            (dailyReturn (stepHoldings cfg rebDates mcapRow s date)
              (retRow date)) s.valueFee * (1 - cfg.annualFee))
    ∧ (date ∉ feeDates →
      (simStep cfg rebDates feeDates mcapRow retRow s date).valueFee
        = compoundValue (stepHoldings cfg rebDates mcapRow s date)
            (dailyReturn (stepHoldings cfg rebDates mcapRow s date)
              (retRow date)) s.valueFee)
    ∧ (simStep cfg rebDates feeDates mcapRow retRow s date).value
        = compoundValue (stepHoldings cfg rebDates mcapRow s date)
            (dailyReturn (stepHoldings cfg rebDates mcapRow s date)
              (retRow date)) s.value := by
  refine ⟨fun hmem => ?_, fun hmem => ?_, rfl⟩
  · rw [simStep_valueFee]; simp [applyFee, hmem]
  · rw [simStep_valueFee]; simp [applyFee, hmem]

theorem fee_application_witness :
    let cfg : Config := ⟨1, 10000, 49 / 10000⟩
    let s : SimState := ⟨[("A", 1)], 200, 100⟩
    let d : Date := ⟨2021, 12, 31⟩
    d ∈ [d] ∧
      (simStep cfg [] [d] (fun _ => []) (fun _ => []) s d).valueFee
        = compoundValue (stepHoldings cfg [] (fun _ => []) s d)
            (dailyReturn (stepHoldings cfg [] (fun _ => []) s d) [])
            100 * (1 - (49 / 10000 : ℚ)) :=
  ⟨List.mem_singleton.mpr rfl,
    (fee_application _ _ _ _ _ _ _).1 (List.mem_singleton.mpr rfl)⟩

/-- C4: on any date on which fewer than `TOP_N` securities have a
non-missing market cap, the loop iteration leaves the holdings unchanged
(in particular a rebalance attempted on such a date is skipped entirely,
also from the empty-holdings state). -/
theorem rebalance_skip (cfg : Config) (rebDates feeDates : List Date)
    (mcapRow : Date → List (Ticker × ℚ))
    (retRow : Date → List (Ticker × Option ℚ)) (s : SimState) (date : Date)
    (hfew : (mcapRow date).length < cfg.topN) :
    (simStep cfg rebDates feeDates mcapRow retRow s date).holdings
      = s.holdings := by
  rw [simStep_holdings, stepHoldings]
  split
  · rw [rebalanceStep, if_neg (by omega)]
  · rfl

theorem rebalance_skip_witness :
    (simStep ⟨2, 10000, 49 / 10000⟩ [⟨2021, 3, 31⟩] []
        (fun _ => [("A", 7)]) (fun _ => [])
        ⟨[("B", 1)], 50, 50⟩ ⟨2021, 3, 31⟩).holdings = [("B", 1)] :=
  rebalance_skip _ _ _ _ _ _ _ (by decide)

/-- C8: the daily portfolio return is the sum over the held securities of
`weight × return`, where a held security that is absent from the returns
panel's columns, or whose return cell is missing on this date, contributes
exactly `0` to the sum — adding such a security to the holdings leaves the
daily return unchanged. -/
theorem daily_return_missing_is_zero (holdings : List (Ticker × ℚ))
    (retRow : List (Ticker × Option ℚ)) :
    dailyReturn holdings retRow
      = (holdings.map (fun p => p.2 *
          (match retRow.lookup p.1 with
           | some (some r) => r
           | _ => (0 : ℚ)))).sum
    ∧ ∀ (t : Ticker) (w : ℚ),
        (retRow.lookup t = none ∨ retRow.lookup t = some none) →
        dailyReturn ((t, w) :: holdings) retRow
          = dailyReturn holdings retRow := by
  constructor
  · rw [dailyReturn]
    congr 1
    apply List.map_congr_left
    intro p _
    cases hl : retRow.lookup p.1 with
    | none => simp [contribOf, hl]
    | some o => cases o with
      | none => simp [contribOf, hl]
      | some r => simp [contribOf, hl]
  · intro t w hmiss
    rw [dailyReturn, dailyReturn, List.map_cons, List.sum_cons]
    rcases hmiss with hmiss | hmiss <;> simp [contribOf, hmiss]

theorem daily_return_missing_is_zero_witness :
    let retRow : List (Ticker × Option ℚ) := [("A", some (1 / 100)), ("B", none)]
    (List.lookup "C" retRow = none ∨ List.lookup "C" retRow = some none) ∧
      dailyReturn [("C", (1 : ℚ) / 2), ("A", 1 / 2)] retRow
        = dailyReturn [("A", (1 : ℚ) / 2)] retRow :=
  ⟨Or.inl rfl,
    (daily_return_missing_is_zero [("A", (1 : ℚ) / 2)] _).2 "C" (1 / 2)
      (Or.inl rfl)⟩

theorem mem_zip_self {α : Type} (l : List α) (p : α × α)
    (h : p ∈ l.zip l) : p.1 = p.2 := by
  induction l with
  | nil => simp at h
  | cons a l ih =>
    rw [List.zip_cons_cons] at h
    rcases List.mem_cons.mp h with h | h
    · rw [h]
    · exact ih h

theorem sum_map_div (l : List (Ticker × ℚ)) (c : ℚ) :
    (l.map (fun p => p.2 / c)).sum = (l.map Prod.snd).sum / c := by
  induction l with
  | nil => simp
  | cons a l ih => simp [ih, add_div]

theorem nlargest_perm_split (n : Nat) (row : List (Ticker × ℚ)) :
    (nlargest n row ++ (row.insertionSort capGE).drop n).Perm row ∧
      ∀ p ∈ nlargest n row, ∀ q ∈ (row.insertionSort capGE).drop n,
        q.2 ≤ p.2 := by
  constructor
  · rw [nlargest, List.take_append_drop]
    exact List.perm_insertionSort capGE row
  · have hsort : (row.insertionSort capGE).Pairwise capGE :=
      List.sorted_insertionSort capGE row
    rw [← List.take_append_drop n (row.insertionSort capGE),
      List.pairwise_append] at hsort
    exact fun p hp q hq => hsort.2.2 p hp q hq

/-- C3 (amended: the selected caps must not sum to zero): on a rebalance
date with at least `TOP_N` non-missing market caps, the new holdings are
the `TOP_N` securities of largest market cap (every selected cap at least
every unselected cap), each weighted by its cap over the sum of the
selected caps; provided that sum is non-zero the weights sum to exactly 1
and are strictly proportional to relative market cap within the selected
set. -/
theorem rebalance_top_weights (topN : Nat) (row holdings : List (Ticker × ℚ))
    (hlen : topN ≤ row.length)
    (htotal : ((nlargest topN row).map Prod.snd).sum ≠ 0) :
    rebalanceStep topN row holdings
        = (nlargest topN row).map
            (fun p => (p.1, p.2 / ((nlargest topN row).map Prod.snd).sum))
      ∧ (rebalanceStep topN row holdings).length = topN
      ∧ (∃ rest : List (Ticker × ℚ),
          (nlargest topN row ++ rest).Perm row ∧
            ∀ p ∈ nlargest topN row, ∀ q ∈ rest, q.2 ≤ p.2)
      ∧ ((rebalanceStep topN row holdings).map Prod.snd).sum = 1
      ∧ ∀ pq ∈ (rebalanceStep topN row holdings).zip (nlargest topN row),
          ∀ pq' ∈ (rebalanceStep topN row holdings).zip (nlargest topN row),
            pq.1.2 * pq'.2.2 = pq'.1.2 * pq.2.2 := by
  have hdef : rebalanceStep topN row holdings
      = (nlargest topN row).map
          (fun p => (p.1, p.2 / ((nlargest topN row).map Prod.snd).sum)) := by
    rw [rebalanceStep, if_pos hlen]
  refine ⟨hdef, ?_, ?_, ?_, ?_⟩
  · rw [hdef, List.length_map, nlargest, List.length_take,
      (List.perm_insertionSort capGE row).length_eq]
    omega
  · exact ⟨(row.insertionSort capGE).drop topN,
      (nlargest_perm_split topN row).1, (nlargest_perm_split topN row).2⟩
  · rw [hdef, List.map_map]
    have : (Prod.snd ∘ fun p : Ticker × ℚ =>
        (p.1, p.2 / ((nlargest topN row).map Prod.snd).sum))
        = fun p : Ticker × ℚ =>
            p.2 / ((nlargest topN row).map Prod.snd).sum := rfl
    rw [this, sum_map_div, div_self htotal]
  · intro pq hpq pq' hpq'
    rw [hdef, List.zip_map_left] at hpq hpq'
    rcases List.mem_map.mp hpq with ⟨p, hpmem, rfl⟩
    rcases List.mem_map.mp hpq' with ⟨p', hpmem', rfl⟩
    have hp : p.1 = p.2 := mem_zip_self _ _ hpmem
    have hp' : p'.1 = p'.2 := mem_zip_self _ _ hpmem'
    cases p with
    | mk a b =>
      cases p' with
      | mk a' b' =>
        dsimp at hp hp' ⊢
        rw [← hp, ← hp']
        ring

theorem rebalance_top_weights_witness :
    2 ≤ ([("A", (100 : ℚ)), ("B", 50), ("C", 30)] : List (Ticker × ℚ)).length
    ∧ ((nlargest 2 [("A", (100 : ℚ)), ("B", 50), ("C", 30)]).map
        Prod.snd).sum ≠ 0
    ∧ ((rebalanceStep 2 [("A", (100 : ℚ)), ("B", 50), ("C", 30)] []).map
        Prod.snd).sum = 1 :=
  have h2 : ((nlargest 2 [("A", (100 : ℚ)), ("B", 50), ("C", 30)]).map
      Prod.snd).sum ≠ 0 := by
    norm_num [nlargest, List.insertionSort, List.orderedInsert, capGE]
  ⟨by decide, h2,
    (rebalance_top_weights 2 [("A", (100 : ℚ)), ("B", 50), ("C", 30)] []
      (by decide) h2).2.2.2.1⟩

/-- C3 counterexample: with `TOP_N = 1` and a rebalance row holding the
single security `("A", 0)` (a present, non-missing cap of zero), the
rebalance is taken (1 ≤ 1 valid securities), yet the assigned weights sum
to 0, not 1 — the Python code computes `0.0 / 0.0 = nan` here, so the
weights do not sum to 1 (within any tolerance) in the source either. -/
theorem rebalance_zero_cap_counterexample :
    1 ≤ ([("A", (0 : ℚ))] : List (Ticker × ℚ)).length ∧
      ((rebalanceStep 1 [("A", (0 : ℚ))] []).map Prod.snd).sum ≠ 1 :=
  ⟨by decide, by
    norm_num [rebalanceStep, nlargest, List.insertionSort,
      List.orderedInsert, capGE]⟩

theorem getLast?_max {α : Type} [LinearOrder α] {l : List α} {m : α}
    (hs : l.Pairwise (· < ·)) (h : l.getLast? = some m) :
    m ∈ l ∧ ∀ x ∈ l, x ≤ m := by
  induction l with
  | nil => simp at h
  | cons a l ih =>
    cases l with
    | nil =>
      rw [List.getLast?_singleton, Option.some.injEq] at h
      subst h
      exact ⟨List.mem_singleton.mpr rfl, by simp⟩
    | cons b t =>
      rw [List.getLast?_cons_cons] at h
      rcases List.pairwise_cons.mp hs with ⟨ha, hs'⟩
      rcases ih hs' h with ⟨hmem, hmax⟩
      refine ⟨List.mem_cons_of_mem _ hmem, fun x hx => ?_⟩
      rcases List.mem_cons.mp hx with rfl | hx
      · exact le_of_lt (ha m hmem)
      · exact hmax x hx

theorem filter_getLast?_iff (index : List Date)
    (hsorted : index.Pairwise (· < ·)) (p : Date → Bool) (d : Date) :
    (index.filter p).getLast? = some d ↔
      d ∈ index ∧ p d = true ∧ ∀ x ∈ index, p x = true → x ≤ d := by
  constructor
  · intro h
    rcases getLast?_max (hsorted.filter p) h with ⟨hmem, hmax⟩
    rcases List.mem_filter.mp hmem with ⟨hdi, hpd⟩
    exact ⟨hdi, hpd,
      fun x hx hpx => hmax x (List.mem_filter.mpr ⟨hx, hpx⟩)⟩
  · rintro ⟨hd, hpd, hdmax⟩
    cases hl : (index.filter p).getLast? with
    | none =>
      rw [List.getLast?_eq_none_iff] at hl
      have : d ∈ index.filter p := List.mem_filter.mpr ⟨hd, hpd⟩
      rw [hl] at this
      simp at this
    | some m =>
      rcases getLast?_max (hsorted.filter p) hl with ⟨hmem, hmax⟩
      rcases List.mem_filter.mp hmem with ⟨hmi, hpm⟩
      have heq : m = d :=
        le_antisymm (hdmax m hmi hpm)
          (hmax d (List.mem_filter.mpr ⟨hd, hpd⟩))
      rw [heq]

/-- Membership characterization of `rebalance_dates`, for a strictly
ascending index whose months are calendar-valid. -/
theorem mem_rebalance_dates (index : List Date)
    (hsorted : index.Pairwise (· < ·))
    (hmonth : ∀ d ∈ index, 1 ≤ d.month ∧ d.month ≤ 12) (d : Date) :
    d ∈ rebalance_dates index ↔
      d ∈ index ∧ ∀ d' ∈ index,
        d'.year = d.year → d'.quarter = d.quarter → d' ≤ d := by
  rw [rebalance_dates]
  rw [(List.perm_insertionSort (· ≤ ·) _).mem_iff, List.mem_dedup,
    List.mem_flatMap]
  constructor
  · rintro ⟨y, _hy, hq⟩
    rcases List.mem_filterMap.mp hq with ⟨q, _hq4, hlast⟩
    rcases (filter_getLast?_iff index hsorted _ d).mp hlast with
      ⟨hdi, hpd, hdmax⟩
    rw [Bool.and_eq_true, beq_iff_eq, beq_iff_eq] at hpd
    refine ⟨hdi, fun d' hd' hyy hqq => ?_⟩
    refine hdmax d' hd' ?_
    rw [Bool.and_eq_true, beq_iff_eq, beq_iff_eq, hyy, hqq]
    exact ⟨hpd.1, hpd.2⟩
  · rintro ⟨hdi, hdmax⟩
    refine ⟨d.year, ?_, ?_⟩
    · rw [List.mem_dedup]
      exact List.mem_map.mpr ⟨d, hdi, rfl⟩
    · apply List.mem_filterMap.mpr
      refine ⟨d.quarter, ?_, ?_⟩
      · have hm := hmonth d hdi
        have : d.quarter = 1 ∨ d.quarter = 2 ∨ d.quarter = 3 ∨
            d.quarter = 4 := by
          unfold Date.quarter
          omega
        rcases this with h | h | h | h <;> simp [h]
      · apply (filter_getLast?_iff index hsorted _ d).mpr
        refine ⟨hdi, by simp, fun x hx hpx => ?_⟩
        rw [Bool.and_eq_true, beq_iff_eq, beq_iff_eq] at hpx
        exact hdmax x hx hpx.1 hpx.2

/-- Membership characterization of `year_end_dates`, for a strictly
ascending index. -/
theorem mem_year_end_dates (index : List Date)
    (hsorted : index.Pairwise (· < ·)) (d : Date) :
    d ∈ year_end_dates index ↔
      d ∈ index ∧ ∀ d' ∈ index, d'.year = d.year → d' ≤ d := by
  rw [year_end_dates, List.mem_filterMap]
  constructor
  · rintro ⟨y, _hy, hlast⟩
    rcases (filter_getLast?_iff index hsorted _ d).mp hlast with
      ⟨hdi, hpd, hdmax⟩
    rw [beq_iff_eq] at hpd
    refine ⟨hdi, fun d' hd' hyy => ?_⟩
    refine hdmax d' hd' ?_
    rw [beq_iff_eq, hyy, hpd]
  · rintro ⟨hdi, hdmax⟩
    refine ⟨d.year, ?_, ?_⟩
    · rw [List.mem_dedup]
      exact List.mem_map.mpr ⟨d, hdi, rfl⟩
    · apply (filter_getLast?_iff index hsorted _ d).mpr
      refine ⟨hdi, by simp, fun x hx hpx => ?_⟩
      rw [beq_iff_eq] at hpx
      exact hdmax x hx hpx

/-- C5: over a strictly ascending date index with calendar-valid months,
the rebalance date set is exactly the set of per-(year, quarter)-group
maxima of the index, the fee date set is exactly the set of per-year-group
maxima, both are subsets of the index, and each contains at most one date
per quarter (respectively per year).  Both are computed from the date
index alone. -/
theorem schedule_sets (index : List Date)
    (hsorted : index.Pairwise (· < ·))
    (hmonth : ∀ d ∈ index, 1 ≤ d.month ∧ d.month ≤ 12) :
    (∀ d : Date, d ∈ rebalance_dates index ↔
        d ∈ index ∧ ∀ d' ∈ index,
          d'.year = d.year → d'.quarter = d.quarter → d' ≤ d)
    ∧ (∀ d : Date, d ∈ year_end_dates index ↔
        d ∈ index ∧ ∀ d' ∈ index, d'.year = d.year → d' ≤ d)
    ∧ (∀ d ∈ rebalance_dates index, ∀ d' ∈ rebalance_dates index,
        d'.year = d.year → d'.quarter = d.quarter → d' = d)
    ∧ (∀ d ∈ year_end_dates index, ∀ d' ∈ year_end_dates index,
        d'.year = d.year → d' = d) := by
  have hreb := mem_rebalance_dates index hsorted hmonth
  have hfee := mem_year_end_dates index hsorted
  refine ⟨hreb, hfee, ?_, ?_⟩
  · intro d hd d' hd' hyy hqq
    rcases (hreb d).mp hd with ⟨hdi, hdmax⟩
    rcases (hreb d').mp hd' with ⟨hdi', hdmax'⟩
    exact le_antisymm (hdmax d' hdi' hyy hqq)
      (hdmax' d hdi hyy.symm hqq.symm)
  · intro d hd d' hd' hyy
    rcases (hfee d).mp hd with ⟨hdi, hdmax⟩
    rcases (hfee d').mp hd' with ⟨hdi', hdmax'⟩
    exact le_antisymm (hdmax d' hdi' hyy) (hdmax' d hdi hyy.symm)

theorem schedule_sets_witness :
    (⟨2021, 1, 5⟩ : Date) ∈
      rebalance_dates [⟨2020, 12, 31⟩, ⟨2021, 1, 4⟩, ⟨2021, 1, 5⟩, ⟨2021, 4, 1⟩]
    ∧ (⟨2020, 12, 31⟩ : Date) ∈
      year_end_dates [⟨2020, 12, 31⟩, ⟨2021, 1, 4⟩, ⟨2021, 1, 5⟩, ⟨2021, 4, 1⟩] :=
  ⟨((schedule_sets [⟨2020, 12, 31⟩, ⟨2021, 1, 4⟩, ⟨2021, 1, 5⟩, ⟨2021, 4, 1⟩]
      (by decide) (by decide)).1 ⟨2021, 1, 5⟩).mpr ⟨by decide, by decide⟩,
    ((schedule_sets [⟨2020, 12, 31⟩, ⟨2021, 1, 4⟩, ⟨2021, 1, 5⟩, ⟨2021, 4, 1⟩]
      (by decide) (by decide)).2.1 ⟨2020, 12, 31⟩).mpr ⟨by decide, by decide⟩⟩

/-- C6 (code bug): on a portfolio value series of length 1 (a date index
with a single date, hence zero return observations), the CAGR computation
is NOT guarded: `252 / len(returns)` divides by zero and Python raises an
uncaught `ZeroDivisionError` (modelled by `PyCagr.zeroDivisionError`),
instead of reporting the statistic as undefined/NaN as the specification
requires.  The result is the error for every exponentiation semantics
`pw`. -/
theorem cagr_length_one_uncaught (pw : ℚ → ℚ → ℚ) :
    cagr pw 10000 [] = PyCagr.zeroDivisionError := rfl

theorem simulate_length (cfg : Config) (rebDates feeDates : List Date)
    (mcapRow : Date → List (Ticker × ℚ))
    (retRow : Date → List (Ticker × Option ℚ)) :
    ∀ index : List Date,
      (simulate cfg rebDates feeDates mcapRow retRow index).length
        = index.length
  | [] => rfl
  | _d0 :: rest => by
    simp [simulate, List.length_scanl]

theorem runBacktest_after_load (cfg : Config) (table : Option McapPanel)
    (mcapDict priceDict : List (Ticker × List (Date × ℚ))) (p : McapPanel)
    (hp : loadMarketCapPanel table mcapDict = .ok p) :
    runBacktest cfg table mcapDict priceDict
      = if p.index.isEmpty then
          .error "uncaught IndexError/AttributeError: empty date index"
        else
          .ok ⟨p.index,
            (simulate cfg (rebalance_dates p.index) (year_end_dates p.index)
              (mcapRowOf p) (retRowOfPanel (returnsPanel p priceDict))
              p.index).map SimState.value,
            (simulate cfg (rebalance_dates p.index) (year_end_dates p.index)
              (mcapRowOf p) (retRowOfPanel (returnsPanel p priceDict))
              p.index).map SimState.valueFee⟩ := by
  rw [runBacktest, hp]

/-- C7 (amended: a run whose assembled panel has an empty date index also
aborts before the simulation, with an uncaught exception rather than the
configuration `RuntimeError`): the run aborts with the fatal "No market cap
data found" error exactly when there is neither a `Market_Cap_Table` sheet
nor any per-ticker market-cap sheet; when data assembles to a panel with
an empty date index the run aborts before the simulation with the uncaught
`IndexError`/`AttributeError`; in every remaining case the pipeline
completes, producing both value series defined at every date of the
panel's index.  In all abort cases no result, not even a partial one, is
produced. -/
theorem no_mcap_data_aborts (cfg : Config) (table : Option McapPanel)
    (mcapDict priceDict : List (Ticker × List (Date × ℚ))) :
    (runBacktest cfg table mcapDict priceDict
        = .error "No market cap data found."
      ↔ (table = none ∧ mcapDict = []))
    ∧ ∀ p, loadMarketCapPanel table mcapDict = .ok p →
        (p.index = [] →
          runBacktest cfg table mcapDict priceDict
            = .error "uncaught IndexError/AttributeError: empty date index")
        ∧ (p.index ≠ [] →
          ∃ r, runBacktest cfg table mcapDict priceDict = .ok r
            ∧ r.dates = p.index
            ∧ r.values.length = p.index.length
            ∧ r.valuesFee.length = p.index.length) := by
  constructor
  · constructor
    · intro he
      cases table with
      | some p =>
        rw [runBacktest_after_load cfg (some p) mcapDict priceDict p rfl]
          at he
        split at he <;> simp at he
      | none =>
        cases mcapDict with
        | nil => exact ⟨rfl, rfl⟩
        | cons a l =>
          rw [runBacktest_after_load cfg none (a :: l) priceDict
            (panelFromDict (a :: l)) rfl] at he
          split at he <;> simp at he
    · rintro ⟨ht, hd⟩
      subst ht
      subst hd
      rfl
  · intro p hp
    constructor
    · intro hidx
      rw [runBacktest_after_load cfg table mcapDict priceDict p hp, hidx]
      rfl
    · intro hidx
      rw [runBacktest_after_load cfg table mcapDict priceDict p hp,
        if_neg (by simpa using hidx)]
      refine ⟨_, rfl, rfl, ?_, ?_⟩ <;>
        simp [simulate_length]

theorem no_mcap_data_aborts_witness :
    runBacktest ⟨50, 10000, 49 / 10000⟩ none [] []
      = Except.error "No market cap data found." :=
  (no_mcap_data_aborts ⟨50, 10000, 49 / 10000⟩ none [] []).1.mpr ⟨rfl, rfl⟩

/-- C7 counterexample to the claim as stated: a present but zero-row
`Market_Cap_Table` sheet is not the "no usable market-cap input" case the
claim's abort branch names (a table is supplied), yet the run does not
complete — the source crashes before the loop at
`portfolio_value.iloc[0] = INITIAL_VALUE` (line 106, uncaught
`IndexError`); header-only per-ticker sheets crash likewise at
`market_cap_panel.index.year` (line 81, `AttributeError`). -/
theorem empty_table_crash_counterexample :
    runBacktest ⟨50, 10000, 49 / 10000⟩
        (some ⟨[], ["A"], fun _ => []⟩) [] []
      = .error "uncaught IndexError/AttributeError: empty date index"
    ∧ (some (⟨[], ["A"], fun _ => []⟩ : McapPanel) ≠ none) :=
  ⟨rfl, by simp⟩

theorem list_sum_nonneg (l : List ℚ) (h : ∀ x ∈ l, 0 ≤ x) : 0 ≤ l.sum := by
  induction l with
  | nil => simp
  | cons a l ih =>
    rw [List.sum_cons]
    exact add_nonneg (h a (List.mem_cons_self a l))
      (ih fun x hx => h x (List.mem_cons_of_mem a hx))

theorem nlargest_subset (n : Nat) (row : List (Ticker × ℚ)) :
    ∀ p ∈ nlargest n row, p ∈ row := fun _p hp =>
  (List.perm_insertionSort capGE row).mem_iff.mp (List.mem_of_mem_take hp)

theorem contrib_ge (retRow : List (Ticker × Option ℚ))
    (hret : ∀ t r, retRow.lookup t = some (some r) → -1 < r)
    (p : Ticker × ℚ) (hw : 0 ≤ p.2) : -p.2 ≤ contribOf retRow p := by
  rw [contribOf]
  cases hl : retRow.lookup p.1 with
  | none => simpa using hw
  | some o => cases o with
    | none => simpa using hw
    | some r =>
      have hr := hret p.1 r hl
      have := mul_le_mul_of_nonneg_left (by linarith : (-1 : ℚ) ≤ r) hw
      show -p.2 ≤ p.2 * r
      linarith

theorem contrib_gt (retRow : List (Ticker × Option ℚ))
    (hret : ∀ t r, retRow.lookup t = some (some r) → -1 < r)
    (p : Ticker × ℚ) (hw : 0 < p.2) : -p.2 < contribOf retRow p := by
  rw [contribOf]
  cases hl : retRow.lookup p.1 with
  | none => simpa using hw
  | some o => cases o with
    | none => simpa using hw
    | some r =>
      have hr := hret p.1 r hl
      have := mul_lt_mul_of_pos_left hr hw
      show -p.2 < p.2 * r
      linarith

theorem contrib_zero (retRow : List (Ticker × Option ℚ)) (p : Ticker × ℚ)
    (hz : p.2 = 0) : contribOf retRow p = 0 := by
  rw [contribOf]
  cases hl : retRow.lookup p.1 with
  | none => rfl
  | some o => cases o with
    | none => rfl
    | some r =>
      show p.2 * r = 0
      rw [hz, zero_mul]

theorem dailyReturn_bounds (retRow : List (Ticker × Option ℚ))
    (hret : ∀ t r, retRow.lookup t = some (some r) → -1 < r) :
    ∀ holdings : List (Ticker × ℚ), (∀ p ∈ holdings, 0 ≤ p.2) →
      -((holdings.map Prod.snd).sum) ≤ dailyReturn holdings retRow
      ∧ ((holdings.map Prod.snd).sum ≤ 1 →
          -1 < dailyReturn holdings retRow) := by
  intro holdings
  induction holdings with
  | nil =>
    intro _
    constructor
    · simp [dailyReturn]
    · intro _
      simp [dailyReturn]
  | cons p t ih =>
    intro hw
    have hwp : 0 ≤ p.2 := hw p (List.mem_cons_self _ _)
    have hwt : ∀ q ∈ t, 0 ≤ q.2 :=
      fun q hq => hw q (List.mem_cons_of_mem _ hq)
    have hA := (ih hwt).1
    have hD : dailyReturn (p :: t) retRow
        = contribOf retRow p + dailyReturn t retRow := by
      rw [dailyReturn, List.map_cons, List.sum_cons]
      rfl
    have hW : ((p :: t).map Prod.snd).sum = p.2 + (t.map Prod.snd).sum := by
      rw [List.map_cons, List.sum_cons]
    constructor
    · have hcge := contrib_ge retRow hret p hwp
      rw [hD, hW]
      linarith
    · intro hsum
      rw [hW] at hsum
      rcases eq_or_lt_of_le hwp with hz | hpos
      · have hc0 : contribOf retRow p = 0 := contrib_zero retRow p hz.symm
        have hB := (ih hwt).2 (by linarith)
        rw [hD, hc0]
        linarith
      · have hcgt := contrib_gt retRow hret p hpos
        rw [hD]
        linarith

theorem rebalanceStep_good (topN : Nat) (row holdings : List (Ticker × ℚ))
    (hrow : ∀ p ∈ row, 0 ≤ p.2) (hold : GoodHoldings holdings) :
    GoodHoldings (rebalanceStep topN row holdings) := by
  rw [rebalanceStep]
  split
  · constructor
    · intro p hp
      rcases List.mem_map.mp hp with ⟨q, hq, rfl⟩
      have hq0 : 0 ≤ q.2 := hrow q (nlargest_subset _ _ q hq)
      have htot : 0 ≤ ((nlargest topN row).map Prod.snd).sum := by
        apply list_sum_nonneg
        intro x hx
        rcases List.mem_map.mp hx with ⟨q', hq', rfl⟩
        exact hrow q' (nlargest_subset _ _ q' hq')
      exact div_nonneg hq0 htot
    · rw [List.map_map]
      have heq : (Prod.snd ∘ fun p : Ticker × ℚ =>
          (p.1, p.2 / ((nlargest topN row).map Prod.snd).sum))
          = fun p : Ticker × ℚ =>
              p.2 / ((nlargest topN row).map Prod.snd).sum := rfl
      rw [heq, sum_map_div]
      rcases eq_or_ne ((nlargest topN row).map Prod.snd).sum 0 with h0 | h0
      · rw [h0, div_zero]
        norm_num
      · rw [div_self h0]
  · exact hold

theorem stepHoldings_good (cfg : Config) (rebDates : List Date)
    (mcapRow : Date → List (Ticker × ℚ)) (s : SimState) (date : Date)
    (hmcap : ∀ p ∈ mcapRow date, 0 ≤ p.2)
    (hold : GoodHoldings s.holdings) :
    GoodHoldings (stepHoldings cfg rebDates mcapRow s date) := by
  rw [stepHoldings]
  split
  · exact rebalanceStep_good _ _ _ hmcap hold
  · exact hold

theorem simStep_inv (cfg : Config) (rebDates feeDates : List Date)
    (mcapRow : Date → List (Ticker × ℚ))
    (retRow : Date → List (Ticker × Option ℚ))
    (hfee : cfg.annualFee < 1)
    (hmcap : ∀ d : Date, ∀ p ∈ mcapRow d, 0 ≤ p.2)
    (hret : ∀ (d : Date) (t : Ticker) (r : ℚ),
      (retRow d).lookup t = some (some r) → -1 < r)
    (s : SimState) (date : Date) (hs : Inv s) :
    Inv (simStep cfg rebDates feeDates mcapRow retRow s date) := by
  have hgood : GoodHoldings (stepHoldings cfg rebDates mcapRow s date) :=
    stepHoldings_good cfg rebDates mcapRow s date (hmcap date) hs.2.2
  have hdr : -1 < dailyReturn (stepHoldings cfg rebDates mcapRow s date)
      (retRow date) :=
    (dailyReturn_bounds (retRow date) (hret date) _ hgood.1).2 hgood.2
  have hcv : ∀ v : ℚ, 0 < v →
      0 < compoundValue (stepHoldings cfg rebDates mcapRow s date)
        (dailyReturn (stepHoldings cfg rebDates mcapRow s date)
          (retRow date)) v := by
    intro v hv
    rw [compoundValue]
    split
    · exact hv
    · exact mul_pos hv (by linarith)
  refine ⟨?_, ?_, hgood⟩
  · rw [simStep_value]
    exact hcv _ hs.1
  · rw [simStep_valueFee, applyFee]
    split
    · exact mul_pos (hcv _ hs.2.1) (by linarith)
    · exact hcv _ hs.2.1

theorem scanl_inv {P : SimState → Prop} {f : SimState → Date → SimState}
    (hf : ∀ s d, P s → P (f s d)) :
    ∀ (l : List Date) (s : SimState), P s → ∀ x ∈ List.scanl f s l, P x
  | [], s, hs, x, hx => by
    rw [List.scanl_nil, List.mem_singleton] at hx
    exact hx ▸ hs
  | a :: l, s, hs, x, hx => by
    rw [List.scanl_cons, List.singleton_append, List.mem_cons] at hx
    rcases hx with rfl | hx
    · exact hs
    · exact scanl_inv hf l (f s a) (hf s a hs) x hx

theorem simulate_values_positive (cfg : Config)
    (rebDates feeDates : List Date)
    (mcapRow : Date → List (Ticker × ℚ))
    (retRow : Date → List (Ticker × Option ℚ)) (index : List Date)
    (hinit : 0 < cfg.initialValue)
    (hfee : 0 ≤ cfg.annualFee ∧ cfg.annualFee < 1)
    (hmcap : ∀ d : Date, ∀ p ∈ mcapRow d, 0 ≤ p.2)
    (hret : ∀ (d : Date) (t : Ticker) (r : ℚ),
      (retRow d).lookup t = some (some r) → -1 < r) :
    ∀ s ∈ simulate cfg rebDates feeDates mcapRow retRow index,
      0 < s.value ∧ 0 < s.valueFee := by
  intro s hs
  cases index with
  | nil => simp [simulate] at hs
  | cons d0 rest =>
    rw [simulate] at hs
    have hinit' : Inv (initState cfg) := by
      refine ⟨hinit, hinit, ?_, ?_⟩
      · intro p hp
        simp [initState] at hp
      · simp [initState]
    have hinv : Inv s :=
      scanl_inv
        (fun s d hsd =>
          simStep_inv cfg rebDates feeDates mcapRow retRow hfee.2
            hmcap hret s d hsd)
        rest (initState cfg) hinit' s hs
    exact ⟨hinv.1, hinv.2.1⟩

theorem nanRebalanceStep_fin (topN : Nat) (row : List (Ticker × ℚ))
    (h : List (Ticker × ℚ))
    (htot : topN ≤ row.length →
      ((nlargest topN row).map Prod.snd).sum ≠ 0) :
    nanRebalanceStep topN row (h.map (fun p => (p.1, PyFloat.fin p.2)))
      = (rebalanceStep topN row h).map (fun p => (p.1, PyFloat.fin p.2)) := by
  rw [nanRebalanceStep, rebalanceStep]
  by_cases hle : topN ≤ row.length
  · rw [if_pos hle, if_pos hle, List.map_map]
    apply List.map_congr_left
    intro p _
    show (p.1, PyFloat.div (.fin p.2)
        (.fin ((nlargest topN row).map Prod.snd).sum))
      = (p.1, PyFloat.fin (p.2 / ((nlargest topN row).map Prod.snd).sum))
    rw [PyFloat.div, if_neg (htot hle)]
  · rw [if_neg hle, if_neg hle]

theorem nanContrib_fin (retRow : List (Ticker × Option ℚ))
    (p : Ticker × ℚ) :
    nanContrib retRow (p.1, PyFloat.fin p.2)
      = .fin (contribOf retRow p) := by
  rw [nanContrib, contribOf]
  cases hl : retRow.lookup p.1 with
  | none => rfl
  | some o => cases o with
    | none => rfl
    | some r => rfl

theorem nanSum_fin (l : List ℚ) :
    nanSum (l.map PyFloat.fin) = .fin l.sum := by
  induction l with
  | nil => rfl
  | cons a t ih =>
    rw [List.map_cons, nanSum, List.foldr_cons]
    have ht : List.foldr PyFloat.add (.fin 0) (t.map PyFloat.fin)
        = PyFloat.fin t.sum := ih
    rw [ht, List.sum_cons]
    rfl

theorem nanDailyReturn_fin (h : List (Ticker × ℚ))
    (retRow : List (Ticker × Option ℚ)) :
    nanDailyReturn (h.map (fun p => (p.1, PyFloat.fin p.2))) retRow
      = .fin (dailyReturn h retRow) := by
  rw [nanDailyReturn, dailyReturn, List.map_map]
  have hfun : (nanContrib retRow ∘ fun p : Ticker × ℚ =>
      (p.1, PyFloat.fin p.2))
      = fun p : Ticker × ℚ => PyFloat.fin (contribOf retRow p) :=
    funext (fun p => nanContrib_fin retRow p)
  rw [hfun,
    show h.map (fun p : Ticker × ℚ => PyFloat.fin (contribOf retRow p))
      = (h.map (contribOf retRow)).map PyFloat.fin from
      (List.map_map _ _ _).symm,
    nanSum_fin]

theorem nanCompound_fin (h : List (Ticker × ℚ)) (dr v : ℚ) :
    nanCompound (h.map (fun p => (p.1, PyFloat.fin p.2))) (.fin dr)
        (.fin v)
      = .fin (compoundValue h dr v) := by
  cases h with
  | nil => rfl
  | cons a t => rfl

theorem nanApplyFee_fin (b : Bool) (fee v : ℚ) :
    nanApplyFee b fee (.fin v) = .fin (applyFee b fee v) := by
  cases b <;> rfl

theorem nanSimStep_fin (cfg : Config) (rebDates feeDates : List Date)
    (mcapRow : Date → List (Ticker × ℚ))
    (retRow : Date → List (Ticker × Option ℚ))
    (htotal : ∀ d : Date, cfg.topN ≤ (mcapRow d).length →
      ((nlargest cfg.topN (mcapRow d)).map Prod.snd).sum ≠ 0)
    (s : SimState) (date : Date) :
    nanSimStep cfg rebDates feeDates mcapRow retRow (finState s) date
      = finState (simStep cfg rebDates feeDates mcapRow retRow s date) := by
  have hh : (if date ∈ rebDates then
        nanRebalanceStep cfg.topN (mcapRow date) (finState s).holdings
      else (finState s).holdings)
      = (stepHoldings cfg rebDates mcapRow s date).map
          (fun p => (p.1, PyFloat.fin p.2)) := by
    rw [stepHoldings]
    split
    · exact nanRebalanceStep_fin cfg.topN (mcapRow date) s.holdings
        (htotal date)
    · rfl
  show NanSimState.mk _ _ _ = NanSimState.mk _ _ _
  rw [NanSimState.mk.injEq]
  refine ⟨hh, ?_, ?_⟩
  · show nanCompound _ (nanDailyReturn _ (retRow date)) (.fin s.value) = _
    rw [hh, nanDailyReturn_fin, nanCompound_fin]
    rfl
  · show nanApplyFee _ cfg.annualFee
        (nanCompound _ (nanDailyReturn _ (retRow date)) (.fin s.valueFee))
      = _
    rw [hh, nanDailyReturn_fin, nanCompound_fin, nanApplyFee_fin]
    rfl

/-- Away from the zero-denominator path (every executed rebalance has a
non-zero selected-cap total), the NaN-faithful float replay and the
exact-arithmetic simulation coincide: every weight and both series entries
stay finite and equal the `ℚ` values. -/
theorem nanSimulate_fin (cfg : Config) (rebDates feeDates : List Date)
    (mcapRow : Date → List (Ticker × ℚ))
    (retRow : Date → List (Ticker × Option ℚ))
    (htotal : ∀ d : Date, cfg.topN ≤ (mcapRow d).length →
      ((nlargest cfg.topN (mcapRow d)).map Prod.snd).sum ≠ 0) :
    ∀ index : List Date,
      nanSimulate cfg rebDates feeDates mcapRow retRow index
        = (simulate cfg rebDates feeDates mcapRow retRow index).map
            finState := by
  have hscan : ∀ (l : List Date) (s : SimState),
      List.scanl (nanSimStep cfg rebDates feeDates mcapRow retRow)
          (finState s) l
        = (List.scanl (simStep cfg rebDates feeDates mcapRow retRow)
            s l).map finState := by
    intro l
    induction l with
    | nil =>
      intro s
      rw [List.scanl_nil, List.scanl_nil, List.map_singleton]
    | cons a t ih =>
      intro s
      rw [List.scanl_cons, List.scanl_cons, List.singleton_append,
        List.singleton_append, List.map_cons,
        nanSimStep_fin cfg rebDates feeDates mcapRow retRow htotal s a,
        ih (simStep cfg rebDates feeDates mcapRow retRow s a)]
  intro index
  cases index with
  | nil => rfl
  | cons d0 rest => exact hscan rest (initState cfg)

/-- C9 (amended: additionally, on every date where a rebalance executes —
at least `TOP_N` valid caps — the selected `TOP_N` market caps must not
sum to zero, the proviso forced by the NaN counterexample below): for
every such valid run — positive initial capital, annual fee in `[0, 1)`,
non-negative market caps, every present per-security daily return strictly
above −100% — both value series of the NaN-faithful float replay are
finite and strictly positive at every date of the index. -/
theorem series_strictly_positive (cfg : Config)
    (rebDates feeDates : List Date)
    (mcapRow : Date → List (Ticker × ℚ))
    (retRow : Date → List (Ticker × Option ℚ)) (index : List Date)
    (hinit : 0 < cfg.initialValue)
    (hfee : 0 ≤ cfg.annualFee ∧ cfg.annualFee < 1)
    (hmcap : ∀ d : Date, ∀ p ∈ mcapRow d, 0 ≤ p.2)
    (hret : ∀ (d : Date) (t : Ticker) (r : ℚ),
      (retRow d).lookup t = some (some r) → -1 < r)
    (htotal : ∀ d : Date, cfg.topN ≤ (mcapRow d).length →
      ((nlargest cfg.topN (mcapRow d)).map Prod.snd).sum ≠ 0) :
    ∀ ns ∈ nanSimulate cfg rebDates feeDates mcapRow retRow index,
      (∃ x : ℚ, ns.value = .fin x ∧ 0 < x)
      ∧ ∃ y : ℚ, ns.valueFee = .fin y ∧ 0 < y := by
  intro ns hns
  rw [nanSimulate_fin cfg rebDates feeDates mcapRow retRow htotal index]
    at hns
  rcases List.mem_map.mp hns with ⟨s, hs, rfl⟩
  rcases simulate_values_positive cfg rebDates feeDates mcapRow retRow
    index hinit hfee hmcap hret s hs with ⟨hv, hvf⟩
  exact ⟨⟨s.value, rfl, hv⟩, ⟨s.valueFee, rfl, hvf⟩⟩

theorem series_strictly_positive_witness :
    (∃ x : ℚ, (⟨[], .fin 10000, .fin 10000⟩ : NanSimState).value
        = .fin x ∧ 0 < x)
    ∧ ∃ y : ℚ, (⟨[], .fin 10000, .fin 10000⟩ : NanSimState).valueFee
        = .fin y ∧ 0 < y :=
  series_strictly_positive ⟨1, 10000, 49 / 10000⟩ [] []
    (fun _ => [("A", 5)]) (fun _ => [("A", some 0)])
    [⟨2021, 1, 4⟩, ⟨2021, 1, 5⟩] (by norm_num) ⟨by norm_num, by norm_num⟩
    (by
      intro d p hp
      rw [List.mem_singleton] at hp
      subst hp
      norm_num)
    (by
      intro d t r h
      simp only [List.lookup] at h
      split at h
      · rw [Option.some.injEq, Option.some.injEq] at h
        rw [← h]
        norm_num
      · exact absurd h (by simp))
    (by
      intro d _hle
      norm_num [nlargest, List.insertionSort, List.orderedInsert])
    ⟨[], .fin 10000, .fin 10000⟩
    (by
      rw [nanSimulate, List.scanl_cons]
      exact List.mem_cons_self _ _)

/-- C9 counterexample to the claim as stated: with `TOP_N = 1`, a single
security `A` whose market cap is 0 (present, non-missing, and non-negative
as the data model requires), a present daily return of 0 (> −100%),
initial capital 10000 > 0 and fee 0.0049 ∈ [0, 1), the rebalance on the
second date divides `0.0 / 0.0`, giving a `nan` weight that poisons the
daily return and both value series — in the source both series are `NaN`
from that date on, and `nan > 0` is false, so the series are not strictly
positive at every date. -/
theorem nan_value_series_counterexample :
    let index : List Date := [⟨2020, 12, 31⟩, ⟨2021, 1, 4⟩]
    let states := nanSimulate ⟨1, 10000, 49 / 10000⟩
      (rebalance_dates index) (year_end_dates index)
      (fun _ => [("A", 0)]) (fun _ => [("A", some 0)]) index
    states.getLast?
        = some ⟨[("A", PyFloat.nan)], PyFloat.nan, PyFloat.nan⟩
      ∧ ((0 : ℚ) ≤ 0 ∧ (-1 : ℚ) < 0 ∧ (0 : ℚ) < 10000
          ∧ (0 : ℚ) ≤ 49 / 10000 ∧ (49 : ℚ) / 10000 < 1) := by
  constructor
  · have hreb : rebalance_dates [⟨2020, 12, 31⟩, ⟨2021, 1, 4⟩]
        = [⟨2020, 12, 31⟩, ⟨2021, 1, 4⟩] := by decide
    have hfee : year_end_dates [⟨2020, 12, 31⟩, ⟨2021, 1, 4⟩]
        = [⟨2020, 12, 31⟩, ⟨2021, 1, 4⟩] := by decide
    rw [nanSimulate, List.scanl_cons, List.scanl_nil, hreb, hfee]
    norm_num [nanSimStep, nanRebalanceStep, nanDailyReturn, nanContrib,
      nanSum, nanCompound, nanApplyFee, nlargest, List.insertionSort,
      List.orderedInsert, PyFloat.div, PyFloat.mul, PyFloat.add,
      List.lookup]
  · norm_num

theorem compoundValue_eq (h : List (Ticker × ℚ)) (dr v : ℚ) :
    compoundValue h dr v = v * (if h.isEmpty then 1 else 1 + dr) := by
  rw [compoundValue]
  split
  · rw [mul_one]
  · rfl

theorem simStep_fee_ratio (cfg : Config) (rebDates feeDates : List Date)
    (mcapRow : Date → List (Ticker × ℚ))
    (retRow : Date → List (Ticker × Option ℚ))
    (s : SimState) (date : Date) (c : ℚ) (hc : s.valueFee = s.value * c) :
    (simStep cfg rebDates feeDates mcapRow retRow s date).valueFee
      = (simStep cfg rebDates feeDates mcapRow retRow s date).value
          * (c * (if date ∈ feeDates then 1 - cfg.annualFee else 1)) := by
  rw [simStep_value, simStep_valueFee, compoundValue_eq, compoundValue_eq,
    applyFee, hc]
  by_cases hd : date ∈ feeDates
  · rw [decide_eq_true hd, if_pos rfl, if_pos hd]
    ring
  · rw [decide_eq_false hd, if_neg Bool.false_ne_true, if_neg hd]
    ring

theorem scanl_fee_ratio (cfg : Config) (rebDates feeDates : List Date)
    (mcapRow : Date → List (Ticker × ℚ))
    (retRow : Date → List (Ticker × Option ℚ)) :
    ∀ (l : List Date) (s : SimState) (c : ℚ), s.valueFee = s.value * c →
      ∀ i : Nat,
        ((List.scanl (simStep cfg rebDates feeDates mcapRow retRow)
            s l)[i]?).map SimState.valueFee
          = ((List.scanl (simStep cfg rebDates feeDates mcapRow retRow)
              s l)[i]?).map
              (fun st => st.value *
                (c * (1 - cfg.annualFee) ^
                  ((l.take i).countP (fun d => decide (d ∈ feeDates)))))
  | [], s, c, hc, i => by
    rw [List.scanl_nil]
    cases i with
    | zero => simp [hc]
    | succ j => simp
  | a :: l, s, c, hc, i => by
    rw [List.scanl_cons, List.singleton_append]
    cases i with
    | zero => simp [hc]
    | succ j =>
      simp only [List.getElem?_cons_succ]
      have hc' := simStep_fee_ratio cfg rebDates feeDates mcapRow retRow
        s a c hc
      rw [scanl_fee_ratio cfg rebDates feeDates mcapRow retRow l
        (simStep cfg rebDates feeDates mcapRow retRow s a) _ hc' j]
      cases hget : (List.scanl (simStep cfg rebDates feeDates mcapRow retRow)
          (simStep cfg rebDates feeDates mcapRow retRow s a) l)[j]? with
      | none => rfl
      | some st =>
        simp only [Option.map_some', Option.some.injEq]
        rw [List.take_succ_cons, List.countP_cons]
        by_cases ha : a ∈ feeDates
        · rw [decide_eq_true ha, if_pos rfl, if_pos ha, pow_succ]
          ring
        · rw [decide_eq_false ha, if_neg Bool.false_ne_true, if_neg ha,
            Nat.add_zero, mul_one]

theorem simStep_value_indep (cfg1 cfg2 : Config)
    (htop : cfg1.topN = cfg2.topN) (rebDates feeDates : List Date)
    (mcapRow : Date → List (Ticker × ℚ))
    (retRow : Date → List (Ticker × Option ℚ)) (s1 s2 : SimState)
    (hh : s1.holdings = s2.holdings) (hv : s1.value = s2.value)
    (date : Date) :
    (simStep cfg1 rebDates feeDates mcapRow retRow s1 date).holdings
        = (simStep cfg2 rebDates feeDates mcapRow retRow s2 date).holdings
      ∧ (simStep cfg1 rebDates feeDates mcapRow retRow s1 date).value
        = (simStep cfg2 rebDates feeDates mcapRow retRow s2 date).value := by
  have hsh : stepHoldings cfg1 rebDates mcapRow s1 date
      = stepHoldings cfg2 rebDates mcapRow s2 date := by
    rw [stepHoldings, stepHoldings, hh, htop]
  exact ⟨by rw [simStep_holdings, simStep_holdings, hsh],
    by rw [simStep_value, simStep_value, hsh, hv]⟩

theorem scanl_value_indep (cfg1 cfg2 : Config)
    (htop : cfg1.topN = cfg2.topN) (rebDates feeDates : List Date)
    (mcapRow : Date → List (Ticker × ℚ))
    (retRow : Date → List (Ticker × Option ℚ)) :
    ∀ (l : List Date) (s1 s2 : SimState),
      s1.holdings = s2.holdings → s1.value = s2.value →
      ∀ i : Nat,
        ((List.scanl (simStep cfg1 rebDates feeDates mcapRow retRow)
            s1 l)[i]?).map SimState.value
          = ((List.scanl (simStep cfg2 rebDates feeDates mcapRow retRow)
              s2 l)[i]?).map SimState.value
  | [], s1, s2, _hh, hv, i => by
    rw [List.scanl_nil, List.scanl_nil]
    cases i with
    | zero => simp [hv]
    | succ j => simp
  | a :: l, s1, s2, hh, hv, i => by
    rw [List.scanl_cons, List.scanl_cons, List.singleton_append,
      List.singleton_append]
    cases i with
    | zero => simp [hv]
    | succ j =>
      simp only [List.getElem?_cons_succ]
      rcases simStep_value_indep cfg1 cfg2 htop rebDates feeDates mcapRow
        retRow s1 s2 hh hv a with ⟨hh', hv'⟩
      exact scanl_value_indep cfg1 cfg2 htop rebDates feeDates mcapRow
        retRow l _ _ hh' hv' j

/-- C10 (amended twice, as forced by the two counterexamples: (a) the
fee-date count runs over the non-initial dates only — the first index date
never receives a fee application even when it is a fee date, because the
loop starts at the second date; (b) the relation is asserted for runs
whose executed rebalances have a non-zero selected-cap total — on an
all-zero-cap rebalance the source's `0.0/0.0` makes both series `NaN` and
no multiplicative relation holds; under this proviso `simulate` coincides
with the NaN-faithful replay by `nanSimulate_fin`, so the `ℚ` series here
are the float series): at every index position `i`, the with-fee value
equals the no-fee value times `(1 − ANNUAL_FEE)^k`, where `k` is the
number of fee dates among the first `i` dates processed by the loop (the
two series are equal before the first such fee application), and the
no-fee series does not depend on `ANNUAL_FEE` at all. -/
theorem fee_discount_factor (cfg : Config) (rebDates feeDates : List Date)
    (mcapRow : Date → List (Ticker × ℚ))
    (retRow : Date → List (Ticker × Option ℚ))
    (d0 : Date) (rest : List Date)
    (_htotal : ∀ d : Date, cfg.topN ≤ (mcapRow d).length →
      ((nlargest cfg.topN (mcapRow d)).map Prod.snd).sum ≠ 0) :
    (∀ i : Nat,
      ((simulate cfg rebDates feeDates mcapRow retRow
          (d0 :: rest))[i]?).map SimState.valueFee
        = ((simulate cfg rebDates feeDates mcapRow retRow
            (d0 :: rest))[i]?).map
            (fun st => st.value * (1 - cfg.annualFee) ^
              ((rest.take i).countP (fun d => decide (d ∈ feeDates)))))
    ∧ ∀ (fee' : ℚ) (i : Nat),
        ((simulate ⟨cfg.topN, cfg.initialValue, fee'⟩ rebDates feeDates
            mcapRow retRow (d0 :: rest))[i]?).map SimState.value
          = ((simulate cfg rebDates feeDates mcapRow retRow
              (d0 :: rest))[i]?).map SimState.value := by
  constructor
  · intro i
    have h := scanl_fee_ratio cfg rebDates feeDates mcapRow retRow rest
      (initState cfg) 1 (by rw [initState, mul_one]) i
    rw [simulate]
    simpa only [one_mul] using h
  · intro fee' i
    rw [simulate, simulate]
    exact scanl_value_indep ⟨cfg.topN, cfg.initialValue, fee'⟩ cfg rfl
      rebDates feeDates mcapRow retRow rest (initState _) (initState _)
      rfl rfl i

theorem fee_discount_factor_witness :
    (∀ i : Nat,
      ((simulate ⟨1, 10000, 49 / 10000⟩ [] [⟨2021, 12, 31⟩]
          (fun _ => [("A", 5)]) (fun _ => [("A", some 0)])
          (⟨2021, 12, 30⟩ :: [⟨2021, 12, 31⟩]))[i]?).map SimState.valueFee
        = ((simulate ⟨1, 10000, 49 / 10000⟩ [] [⟨2021, 12, 31⟩]
            (fun _ => [("A", 5)]) (fun _ => [("A", some 0)])
            (⟨2021, 12, 30⟩ :: [⟨2021, 12, 31⟩]))[i]?).map
            (fun st => st.value * (1 - (⟨1, 10000, 49 / 10000⟩ :
                Config).annualFee) ^
              (([⟨2021, 12, 31⟩].take i).countP
                (fun d => decide (d ∈ [(⟨2021, 12, 31⟩ : Date)])))))
    ∧ ∀ (fee' : ℚ) (i : Nat),
        ((simulate ⟨1, 10000, fee'⟩ [] [⟨2021, 12, 31⟩]
            (fun _ => [("A", 5)]) (fun _ => [("A", some 0)])
            (⟨2021, 12, 30⟩ :: [⟨2021, 12, 31⟩]))[i]?).map SimState.value
          = ((simulate ⟨1, 10000, 49 / 10000⟩ [] [⟨2021, 12, 31⟩]
              (fun _ => [("A", 5)]) (fun _ => [("A", some 0)])
              (⟨2021, 12, 30⟩ :: [⟨2021, 12, 31⟩]))[i]?).map
              SimState.value :=
  fee_discount_factor ⟨1, 10000, 49 / 10000⟩ [] [⟨2021, 12, 31⟩]
    (fun _ => [("A", 5)]) (fun _ => [("A", some 0)])
    ⟨2021, 12, 30⟩ [⟨2021, 12, 31⟩]
    (by
      intro d _hle
      norm_num [nlargest, List.insertionSort, List.orderedInsert])

/-- C10 counterexample to the claim as stated: when the first date of the
index is the last trading day of its calendar year (here a one-day 2020
rump year), it belongs to the fee date set, so the claim's count of fee
dates `≤ d` is 1 at that date; but the loop never processes the first
date, so both series still hold the initial capital there — `10000 ≠
10000 × (1 − 0.0049)^1`. -/
theorem fee_at_first_date_counterexample :
    let index : List Date := [⟨2020, 12, 31⟩, ⟨2021, 1, 4⟩]
    let cfg : Config := ⟨1, 10000, 49 / 10000⟩
    let states := simulate cfg (rebalance_dates index)
      (year_end_dates index) (fun _ => [("A", 5)])
      (fun _ => [("A", some 0)]) index
    (year_end_dates index).countP
        (fun d => decide (d ≤ (⟨2020, 12, 31⟩ : Date))) = 1
      ∧ states.head? = some (initState cfg)
      ∧ (initState cfg).valueFee = 10000
      ∧ (initState cfg).value = 10000
      ∧ (10000 : ℚ) ≠ 10000 * (1 - cfg.annualFee) ^ 1 :=
  ⟨by decide, rfl, rfl, rfl, by norm_num⟩

end Corgi
